import Mathlib

/-!
Shallow embedding of `src/scripts/pngs_to_ico.py`.

The script scans a directory tree for PNG files whose stem carries a trailing
size suffix (regex `^(.*?)(?:[_@\-]?)(\d+)$`), groups them by parent-folder
name, validates each candidate's probed pixel dimensions against the declared
size, sorts the surviving entries ascending by size with a stable sort, and
serializes an ICO container (6-byte header, 16-byte directory records, raw PNG
payloads).

Modelling conventions:
* Bytes are `Nat` values; byte strings are `List Nat`.  `struct.pack` fields
  are modelled by explicit little-endian byte lists (`pack_u16`, `pack_u32`).
* Filesystem and Pillow effects are abstracted into data: a `Candidate` keeps
  the declared size together with the probe result (`none` models
  `Image.open` raising) and the raw file content (`none` models
  `Path.read_bytes` raising); a `GroupJob` carries whether the output `.ico`
  path already exists and whether the final write raises (with its cause).
* Python's `sorted` (Timsort) is stable; any two stable sorts on the same key
  agree extensionally, so it is modelled by `List.insertionSort` on `(·.1 ≤ ·.1)`.
* `print` diagnostics become constructors of `Diag`, emitted in program order.
-/

namespace PngsToIco

/-- The characters accepted by the optional separator class `[_@\-]` of
`SIZE_RE`. -/
def isSep (c : Char) : Bool := c = '_' || c = '@' || c = '-'

/-- `SIZE_RE.match(stem)`, returning `group(2)` (the digit run) on success.

The regex is `^(.*?)(?:[_@\-]?)(\d+)$`: a lazy prefix, an optional single
separator, then one or more digits anchored at the end.  Lazy matching tries
prefix lengths from the shortest; at each position the greedy `?` first tries
to consume a separator character, then tries the empty alternative.  This
function implements exactly that search (restricted to ASCII digits, which is
what the script's filenames use). -/
def sizeReMatch : List Char → Option (List Char)
  | [] => none
  | c :: rest =>
    if isSep c && !rest.isEmpty && rest.all Char.isDigit then some rest
    else if (c :: rest).all Char.isDigit then some (c :: rest)
    else sizeReMatch rest

/-- `int(...)` on the matched ASCII digit run (`m.group(2)`).  For a run of
ASCII digits `int` never raises, so the `except ValueError` branch of
`group_pngs` is unreachable and the conversion is modelled as total. -/
def digitsToNat (ds : List Char) : Nat := ds.foldl (fun a c => 10 * a + (c.toNat - 48)) 0

/-- One file produced by `dirpath.rglob('*.png')` (already filtered by
`p.is_file()`): its stem (`p.stem`) and its parent directory name
(`p.parent.name or '.'`). -/
structure ScanFile where
  stem : List Char
  folder : String
deriving DecidableEq, Repr

/-- `groups[folder_name].append((p, size))` on a `defaultdict(list)`:
appending to an existing key keeps the dict order, a fresh key is appended at
the end (Python dicts preserve insertion order). -/
def insertGroup : List (String × List (ScanFile × Nat)) → String → ScanFile × Nat →
    List (String × List (ScanFile × Nat))
  | [], k, v => [(k, [v])]
  | g :: gs, k, v => if g.1 = k then (g.1, g.2 ++ [v]) :: gs else g :: insertGroup gs k v

/-- The body of the `for p in sorted(dirpath.rglob('*.png'))` loop of
`group_pngs`: files whose stem does not match `SIZE_RE` are skipped, matching
files are appended to their folder's group with the parsed size. -/
def scanStep (gs : List (String × List (ScanFile × Nat))) (f : ScanFile) :
    List (String × List (ScanFile × Nat)) :=
  match sizeReMatch f.stem with
  | none => gs
  | some ds => insertGroup gs f.folder (f, digitsToNat ds)

/-- `group_pngs`: fold the scan loop over the (sorted) file list. -/
def group_pngs (files : List ScanFile) : List (String × List (ScanFile × Nat)) :=
  files.foldl scanStep []

/-- All `(groupKey, (file, size))` membership triples of a grouping, used to
state which files appear in which group. -/
def flatGroups (gs : List (String × List (ScanFile × Nat))) : List (String × (ScanFile × Nat)) :=
  gs.flatMap (fun g => g.2.map (fun e => (g.1, e)))

/-- One `(p, s)` item of a group as seen by `create_ico_for_group`, with the
filesystem/Pillow behaviour of `p` reified:
* `size` is the declared size `s` parsed from the suffix;
* `probe` is `im.size` for `Image.open(p)`, `none` when opening/decoding raises;
* `content` is `p.read_bytes()`, `none` when reading raises. -/
structure Candidate where
  name : String
  size : Nat
  probe : Option (Nat × Nat)
  content : Option (List Nat)
deriving DecidableEq, Repr

/-- The diagnostics printed by the script, in program order. -/
inductive Diag where
  /-- `已存在，跳过: {ico_path}` -/
  | skipExists (base : String)
  /-- `警告: {p.name} 不是正方形 ({w}x{h}), 跳过` -/
  | notSquare (name : String) (w h : Nat)
  /-- `警告: {p.name} 实际尺寸 {w} 与后缀 {s} 不符, 跳过` -/
  | sizeMismatch (name : String) (w s : Nat)
  /-- `无法读取 {p}: {e}` -/
  | unreadable (name : String)
  /-- `跳过（没有可用的同尺寸 PNG）: {base}` -/
  | noUsable (base : String)
  /-- `已生成: {ico_path} (sizes: {sizes_str})` -/
  | generated (base : String) (sizes : List Nat)
  /-- `写入失败: {ico_path} -> {e}` -/
  | writeFailed (base : String) (cause : String)
deriving DecidableEq, Repr

/-- The validation loop of `create_ico_for_group` (`for p, s in items`):
returns the surviving `entries` list of `(size, data)` pairs together with the
diagnostics printed, both in program order.  `if not s: continue` silently
skips a zero size; a failed probe or a failed read lands in the
`except` branch (`unreadable`); non-square and mismatched candidates are
rejected with their warnings and the loop continues. -/
def validateItems : List Candidate → List (Nat × List Nat) × List Diag
  | [] => ([], [])
  | c :: rest =>
    if c.size = 0 then validateItems rest
    else
      match c.probe with
      | none =>
        let r := validateItems rest
        (r.1, .unreadable c.name :: r.2)
      | some (w, h) =>
        if w ≠ h then
          let r := validateItems rest
          (r.1, .notSquare c.name w h :: r.2)
        else if w ≠ c.size then
          let r := validateItems rest
          (r.1, .sizeMismatch c.name w c.size :: r.2)
        else
          match c.content with
          | none =>
            let r := validateItems rest
            (r.1, .unreadable c.name :: r.2)
          | some data =>
            let r := validateItems rest
            ((c.size, data) :: r.1, r.2)

/-- Characterization of a candidate that passes every validation check:
positive declared size, readable probe with square dimensions equal to the
declared size, readable content.  Returns the entry it contributes. -/
def passes (c : Candidate) : Option (Nat × List Nat) :=
  if c.size = 0 then none
  else
    match c.probe, c.content with
    | some (w, h), some data => if w = h ∧ w = c.size then some (c.size, data) else none
    | _, _ => none

/-- `entries = sorted(entries, key=lambda x: x[0])`.  Python's `sorted` is a
stable ascending sort on the key; `insertionSort` with `(·.1 ≤ ·.1)` is a
stable ascending sort on the same key, hence extensionally identical. -/
def sortEntries (l : List (Nat × List Nat)) : List (Nat × List Nat) :=
  List.insertionSort (fun a b => a.1 ≤ b.1) l

/-- `struct.pack('<H', n)`: two little-endian bytes. -/
def pack_u16 (n : Nat) : List Nat := [n % 256, n / 256 % 256]

/-- `struct.pack('<I', n)`: four little-endian bytes. -/
def pack_u32 (n : Nat) : List Nat :=
  [n % 256, n / 256 % 256, n / 65536 % 256, n / 16777216 % 256]

/-- One directory record,
`struct.pack('<BBBBHHII', w_byte, h_byte, color_count, reserved, planes, bit_count, data_len, offset)`
with `w_byte = 0 if size >= 256 else size` (and identically `h_byte`),
`color_count = 0`, `reserved = 0`, `planes = 0`, `bit_count = 32`. -/
def dirRecord (size dataLen offset : Nat) : List Nat :=
  [if 256 ≤ size then 0 else size, if 256 ≤ size then 0 else size, 0, 0] ++
    pack_u16 0 ++ pack_u16 32 ++ pack_u32 dataLen ++ pack_u32 offset

/-- The `for size, data in entries` serialization loop: accumulates
`dir_entries` and `image_data`, advancing `offset` by `len(data)` per entry. -/
def buildEntries : List (Nat × List Nat) → Nat → List Nat × List Nat
  | [], _ => ([], [])
  | (size, data) :: rest, offset =>
    let r := buildEntries rest (offset + data.length)
    (dirRecord size data.length offset ++ r.1, data ++ r.2)

/-- Serialization of a (sorted) entry list: `struct.pack('<HHH', 0, 1, count)`
header, then the directory records, then the concatenated payloads;
the first offset is `6 + 16 * count`. -/
def serializeIco (entries : List (Nat × List Nat)) : List Nat :=
  let count := entries.length
  let r := buildEntries entries (6 + 16 * count)
  (pack_u16 0 ++ pack_u16 1 ++ pack_u16 count) ++ r.1 ++ r.2

/-- Sum of the payload lengths of an entry list. -/
def payloadTotal (entries : List (Nat × List Nat)) : Nat :=
  (entries.map (fun e => e.2.length)).sum

/-- Read one byte of a serialized container (0 past the end). -/
def read_u8 (bs : List Nat) (i : Nat) : Nat := bs.getD i 0

/-- Read a little-endian uint16 at byte offset `i`. -/
def read_u16 (bs : List Nat) (i : Nat) : Nat := read_u8 bs i + 256 * read_u8 bs (i + 1)

/-- Read a little-endian uint32 at byte offset `i`. -/
def read_u32 (bs : List Nat) (i : Nat) : Nat :=
  read_u8 bs i + 256 * read_u8 bs (i + 1) + 65536 * read_u8 bs (i + 2) +
    16777216 * read_u8 bs (i + 3)

/-- The directory's width byte decoded back to a pixel size: byte 0 means 256. -/
def decodeSizeByte (b : Nat) : Nat := if b = 0 then 256 else b

/-- `create_ico_for_group base items out_dir overwrite`, with the filesystem
reified: `icoExists` is `ico_path.exists()`, and `writeError = some e` means
the `with ico_path.open('wb')` block raises with message `e` (caught by the
surrounding `try`).  Returns the printed diagnostics in order and the bytes of
the completely written container (`none` when nothing complete is written;
the write is modelled as atomic). -/
def create_ico_for_group (base : String) (items : List Candidate) (overwrite : Bool)
    (icoExists : Bool) (writeError : Option String) : List Diag × Option (List Nat) :=
  if icoExists && !overwrite then ([.skipExists base], none)
  else
    let v := validateItems items
    if v.1.isEmpty then (v.2 ++ [.noUsable base], none)
    else
      let entries := sortEntries v.1
      let bs := serializeIco entries
      match writeError with
      | some cause => (v.2 ++ [.writeFailed base cause], none)
      | none => (v.2 ++ [.generated base (entries.map (fun e => e.1))], some bs)

/-- One group as processed by `main`'s loop, with its reified filesystem
behaviour. -/
structure GroupJob where
  base : String
  items : List Candidate
  icoExists : Bool
  writeError : Option String
deriving Repr

/-- The `for base, items in groups.items()` loop of `main`: every group is
processed in turn (no exception escapes `create_ico_for_group`), collecting
all diagnostics and all `(base, bytes)` containers actually written. -/
def runGroups (overwrite : Bool) : List GroupJob → List Diag × List (String × List Nat)
  | [] => ([], [])
  | g :: rest =>
    let r := create_ico_for_group g.base g.items overwrite g.icoExists g.writeError
    let rs := runGroups overwrite rest
    (r.1 ++ rs.1, (match r.2 with | some bs => [(g.base, bs)] | none => []) ++ rs.2)

end PngsToIco

namespace PngsToIco

/-! ### Basic facts about the validation loop -/

theorem validateItems_nil : validateItems [] = ([], []) := rfl

/-- `if not s: continue`: a zero-size item is skipped with no diagnostic. -/
theorem validateItems_zero_skip (c : Candidate) (rest : List Candidate) (h : c.size = 0) :
    validateItems (c :: rest) = validateItems rest := by
  simp [validateItems, h]

theorem validateItems_all_zero (items : List Candidate) (h : ∀ c ∈ items, c.size = 0) :
    validateItems items = ([], []) := by
  induction items with
  | nil => rfl
  | cons c rest ih =>
    rw [validateItems_zero_skip c rest (h c (by simp))]
    exact ih (fun x hx => h x (List.mem_cons_of_mem _ hx))

/-- The surviving entries are exactly the per-candidate results of `passes`,
in order. -/
theorem validateItems_fst_eq_filterMap :
    ∀ items : List Candidate, (validateItems items).1 = items.filterMap passes
  | [] => rfl
  | c :: rest => by
    have ih := validateItems_fst_eq_filterMap rest
    by_cases h0 : c.size = 0
    · simp [validateItems, passes, h0, ih]
    · cases hp : c.probe with
      | none => simp [validateItems, passes, h0, hp, ih]
      | some wh =>
        obtain ⟨w, h⟩ := wh
        by_cases hwh : w = h
        · subst hwh
          by_cases hws : w = c.size
          · cases hc : c.content with
            | none => simp [validateItems, passes, h0, hp, hws, hc, ih]
            | some data => simp [validateItems, passes, h0, hp, hws, hc, ih]
          · cases hc : c.content with
            | none => simp [validateItems, passes, h0, hp, hws, hc, ih]
            | some data => simp [validateItems, passes, h0, hp, hws, hc, ih]
        · cases hc : c.content with
          | none => simp [validateItems, passes, h0, hp, hwh, hc, ih]
          | some data => simp [validateItems, passes, h0, hp, hwh, hc, ih]

end PngsToIco

namespace PngsToIco

/-! ### Facts about grouping -/

theorem flatGroups_cons (g : String × List (ScanFile × Nat))
    (gs : List (String × List (ScanFile × Nat))) :
    flatGroups (g :: gs) = g.2.map (fun e => (g.1, e)) ++ flatGroups gs := by
  simp [flatGroups]

theorem mem_flatGroups_insertGroup (gs : List (String × List (ScanFile × Nat))) (k : String)
    (v : ScanFile × Nat) (x : String × (ScanFile × Nat)) :
    x ∈ flatGroups (insertGroup gs k v) ↔ x = (k, v) ∨ x ∈ flatGroups gs := by
  induction gs with
  | nil => simp [insertGroup, flatGroups]
  | cons g gs ih =>
    obtain ⟨gk, gl⟩ := g
    by_cases h : gk = k
    · subst h
      have hins : insertGroup ((gk, gl) :: gs) gk v = (gk, gl ++ [v]) :: gs := by
        simp [insertGroup]
      rw [hins, flatGroups_cons, flatGroups_cons]
      simp only [List.map_append, List.map_cons, List.map_nil, List.mem_append,
        List.mem_singleton]
      tauto
    · have hins : insertGroup ((gk, gl) :: gs) k v = (gk, gl) :: insertGroup gs k v := by
        simp [insertGroup, h]
      rw [hins, flatGroups_cons, flatGroups_cons, List.mem_append, List.mem_append, ih]
      tauto

theorem mem_flatGroups_foldl (files : List ScanFile) (acc : List (String × List (ScanFile × Nat)))
    (x : String × (ScanFile × Nat)) :
    x ∈ flatGroups (files.foldl scanStep acc) ↔
      x ∈ flatGroups acc ∨
        ∃ f ∈ files, ∃ ds, sizeReMatch f.stem = some ds ∧ x = (f.folder, (f, digitsToNat ds)) := by
  induction files generalizing acc with
  | nil => simp
  | cons f fs ih =>
    rw [List.foldl_cons, ih]
    cases hm : sizeReMatch f.stem with
    | none =>
      simp only [scanStep, hm, List.mem_cons]
      constructor
      · rintro (h | h)
        · exact Or.inl h
        · obtain ⟨g, hg, ds, hds, hx⟩ := h
          exact Or.inr ⟨g, Or.inr hg, ds, hds, hx⟩
      · rintro (h | ⟨g, (rfl | hg), ds, hds, hx⟩)
        · exact Or.inl h
        · rw [hm] at hds; cases hds
        · exact Or.inr ⟨g, hg, ds, hds, hx⟩
    | some ds =>
      simp only [scanStep, hm, mem_flatGroups_insertGroup, List.mem_cons]
      constructor
      · rintro ((rfl | h) | h)
        · exact Or.inr ⟨f, Or.inl rfl, ds, hm, rfl⟩
        · exact Or.inl h
        · obtain ⟨g, hg, ds2, hds, hx⟩ := h
          exact Or.inr ⟨g, Or.inr hg, ds2, hds, hx⟩
      · rintro (h | ⟨g, (rfl | hg), ds2, hds, hx⟩)
        · exact Or.inl (Or.inr h)
        · rw [hm] at hds
          cases hds
          exact Or.inl (Or.inl hx)
        · exact Or.inr ⟨g, hg, ds2, hds, hx⟩

/-! ### Stability of the entry sort -/

theorem filter_orderedInsert_key (s : Nat) (a : Nat × List Nat) (l : List (Nat × List Nat)) :
    (List.orderedInsert (fun x y => x.1 ≤ y.1) a l).filter (fun e => e.1 == s) =
      if a.1 = s then a :: l.filter (fun e => e.1 == s)
      else l.filter (fun e => e.1 == s) := by
  induction l with
  | nil =>
    by_cases has : a.1 = s <;> simp [List.orderedInsert, List.filter_cons, has]
  | cons b l ih =>
    simp only [List.orderedInsert]
    by_cases hab : a.1 ≤ b.1
    · rw [if_pos hab]
      by_cases has : a.1 = s <;> by_cases hbs : b.1 = s <;>
        simp [has, hbs, List.filter_cons]
    · rw [if_neg hab]
      have hba : b.1 < a.1 := Nat.lt_of_not_le hab
      by_cases has : a.1 = s
      · have hbs : ¬ b.1 = s := by omega
        simp [has, hbs, List.filter_cons, ih]
      · by_cases hbs : b.1 = s <;>
          simp [has, hbs, List.filter_cons, ih]

/-- The sort is stable: for each key value, the subsequence of entries with
that key is unchanged. -/
theorem filter_sortEntries (s : Nat) (l : List (Nat × List Nat)) :
    (sortEntries l).filter (fun e => e.1 == s) = l.filter (fun e => e.1 == s) := by
  induction l with
  | nil => rfl
  | cons a l ih =>
    simp only [sortEntries, List.insertionSort] at ih ⊢
    rw [filter_orderedInsert_key]
    by_cases has : a.1 = s <;> simp [has, List.filter_cons, ih]

theorem countP_sortEntries (s : Nat) (l : List (Nat × List Nat)) :
    (sortEntries l).countP (fun e => e.1 == s) = l.countP (fun e => e.1 == s) := by
  rw [List.countP_eq_length_filter, List.countP_eq_length_filter, filter_sortEntries]

end PngsToIco

namespace PngsToIco

/-! ### Structure of the serialized container -/

theorem dirRecord_length (size dataLen offset : Nat) :
    (dirRecord size dataLen offset).length = 16 := rfl

theorem payloadTotal_nil : payloadTotal [] = 0 := rfl

theorem payloadTotal_cons (e : Nat × List Nat) (es : List (Nat × List Nat)) :
    payloadTotal (e :: es) = e.2.length + payloadTotal es := by
  simp [payloadTotal]

theorem payloadTotal_append (l1 l2 : List (Nat × List Nat)) :
    payloadTotal (l1 ++ l2) = payloadTotal l1 + payloadTotal l2 := by
  simp [payloadTotal]

theorem payloadTotal_take_le (es : List (Nat × List Nat)) (i : Nat) :
    payloadTotal (es.take i) ≤ payloadTotal es := by
  conv_rhs => rw [← List.take_append_drop i es]
  rw [payloadTotal_append]
  omega

theorem payload_len_le_total (es : List (Nat × List Nat)) (i : Nat) (hi : i < es.length) :
    (es.get ⟨i, hi⟩).2.length ≤ payloadTotal es := by
  have hmem : (es.get ⟨i, hi⟩).2.length ∈ es.map (fun e => e.2.length) :=
    List.mem_map_of_mem _ (es.get_mem i hi)
  exact List.single_le_sum (fun x _ => Nat.zero_le x) _ hmem

theorem buildEntries_snd :
    ∀ (es : List (Nat × List Nat)) (off : Nat),
      (buildEntries es off).2 = es.flatMap (fun e => e.2)
  | [], _ => rfl
  | (s, d) :: rest, off => by
    simp [buildEntries, buildEntries_snd rest]

theorem buildEntries_fst_length :
    ∀ (es : List (Nat × List Nat)) (off : Nat),
      (buildEntries es off).1.length = 16 * es.length
  | [], _ => rfl
  | (s, d) :: rest, off => by
    simp [buildEntries, buildEntries_fst_length rest, dirRecord_length]
    omega

/-- The `i`-th 16-byte slice of the accumulated directory is the record of the
`i`-th entry, with the running offset `off + (sum of the prior payload sizes)`. -/
theorem buildEntries_record :
    ∀ (es : List (Nat × List Nat)) (off i : Nat) (hi : i < es.length),
      (((buildEntries es off).1).drop (16 * i)).take 16 =
        dirRecord (es.get ⟨i, hi⟩).1 (es.get ⟨i, hi⟩).2.length
          (off + payloadTotal (es.take i))
  | [], _, i, hi => absurd hi (by simp)
  | (s, d) :: rest, off, 0, hi => by
    simp only [buildEntries, Nat.mul_zero, List.drop_zero, List.take_zero, payloadTotal_nil,
      Nat.add_zero, List.get]
    exact List.take_left' (dirRecord_length s d.length off)
  | (s, d) :: rest, off, i + 1, hi => by
    have hi' : i < rest.length := by simpa using hi
    have h16 : 16 * (i + 1) = (dirRecord s d.length off).length + 16 * i := by
      rw [dirRecord_length]
      ring
    simp only [buildEntries, h16, List.drop_append]
    rw [buildEntries_record rest (off + d.length) i hi']
    simp [payloadTotal_cons, Nat.add_assoc]

/-- The serialized container, written as an explicit byte list: the 6 header
bytes followed by the directory block and the payload block. -/
theorem serializeIco_eq (es : List (Nat × List Nat)) :
    serializeIco es =
      [0, 0, 1, 0, es.length % 256, es.length / 256 % 256] ++
        ((buildEntries es (6 + 16 * es.length)).1 ++
          (buildEntries es (6 + 16 * es.length)).2) := by
  simp [serializeIco, pack_u16]

/-- Extracting the `i`-th payload from the concatenated payload block. -/
theorem payload_extract :
    ∀ (es : List (Nat × List Nat)) (i : Nat) (hi : i < es.length),
      ((es.flatMap (fun e => e.2)).drop (payloadTotal (es.take i))).take
          (es.get ⟨i, hi⟩).2.length =
        (es.get ⟨i, hi⟩).2
  | [], i, hi => absurd hi (by simp)
  | e :: rest, 0, hi => by
    simp only [List.take_zero, payloadTotal_nil, List.drop_zero, List.flatMap_cons, List.get]
    exact List.take_left e.2 (rest.flatMap (fun x => x.2))
  | e :: rest, i + 1, hi => by
    have hi' : i < rest.length := by simpa using hi
    simp only [List.flatMap_cons, List.take_succ_cons, payloadTotal_cons, List.drop_append,
      List.get]
    exact payload_extract rest i hi'

/-- Reading back four little-endian bytes of a value below `2 ^ 32`. -/
theorem read_pack_u32_value (v : Nat) (hv : v < 4294967296) :
    v % 256 + 256 * (v / 256 % 256) + 65536 * (v / 65536 % 256) +
      16777216 * (v / 16777216 % 256) = v := by
  omega

/-- A byte inside a 16-byte slice, addressed absolutely. -/
theorem getD_of_take_drop (bs rec : List Nat) (m j : Nat)
    (h : (bs.drop m).take 16 = rec) (hj : j < 16) :
    bs.getD (m + j) 0 = rec.getD j 0 := by
  rw [← h]
  simp [List.getD_eq_getElem?_getD, List.getElem?_take, hj, List.getElem?_drop]

end PngsToIco

namespace PngsToIco

/-- C2: for a candidate with positive declared size, a non-square probe is
rejected with the "not square" diagnostic, a square probe of the wrong size
with the "dimension mismatch" diagnostic, an unreadable/undecodable source
with the "unreadable source" diagnostic; each rejection leaves the rest of the
group to be processed exactly as before (no abort), and the surviving entries
are exactly those of the candidates passing all checks. -/
theorem validation_rejects_and_continues (c : Candidate) (rest items : List Candidate)
    (hpos : 0 < c.size) :
    (∀ w h, c.probe = some (w, h) → w ≠ h →
      validateItems (c :: rest) =
        ((validateItems rest).1, .notSquare c.name w h :: (validateItems rest).2)) ∧
    (∀ w, c.probe = some (w, w) → w ≠ c.size →
      validateItems (c :: rest) =
        ((validateItems rest).1, .sizeMismatch c.name w c.size :: (validateItems rest).2)) ∧
    (c.probe = none →
      validateItems (c :: rest) =
        ((validateItems rest).1, .unreadable c.name :: (validateItems rest).2)) ∧
    (c.probe = some (c.size, c.size) → c.content = none →
      validateItems (c :: rest) =
        ((validateItems rest).1, .unreadable c.name :: (validateItems rest).2)) ∧
    (validateItems items).1 = items.filterMap passes := by
  have hs : ¬ c.size = 0 := by omega
  refine ⟨?_, ?_, ?_, ?_, validateItems_fst_eq_filterMap items⟩
  · intro w h hw hne
    simp [validateItems, hs, hw, hne]
  · intro w hw hne
    simp [validateItems, hs, hw, hne]
  · intro hw
    simp [validateItems, hs, hw]
  · intro hw hc
    simp [validateItems, hs, hw, hc]

/-- Witness for C2: a 16-declared candidate probing as 3×4 is rejected as not
square and contributes no entry. -/
theorem validation_rejects_and_continues_witness :
    validateItems [⟨"b", 16, some (3, 4), none⟩] = ([], [.notSquare "b" 3 4]) :=
  (validation_rejects_and_continues ⟨"b", 16, some (3, 4), none⟩ [] []
    (by decide)).1 3 4 rfl (by decide)

/-- C7: when no entries survive validation, the group is aborted with the
"no usable entries" diagnostic, nothing is written, and the remaining groups
are processed unchanged. -/
theorem no_usable_entries_abort (base : String) (items : List Candidate)
    (overwrite icoExists : Bool) (we : Option String) (rest : List GroupJob)
    (hempty : (validateItems items).1 = [])
    (hreach : (icoExists && !overwrite) = false) :
    create_ico_for_group base items overwrite icoExists we =
      ((validateItems items).2 ++ [.noUsable base], none) ∧
    runGroups overwrite ((⟨base, items, icoExists, we⟩ : GroupJob) :: rest) =
      ((validateItems items).2 ++ [.noUsable base] ++ (runGroups overwrite rest).1,
        (runGroups overwrite rest).2) := by
  have h1 : create_ico_for_group base items overwrite icoExists we =
      ((validateItems items).2 ++ [.noUsable base], none) := by
    simp [create_ico_for_group, hreach, hempty]
  refine ⟨h1, ?_⟩
  simp [runGroups, h1]

/-- Witness for C7: a group whose only candidate fails the square check
produces the rejection diagnostic, the abort diagnostic, and no file. -/
theorem no_usable_entries_abort_witness :
    create_ico_for_group "g" [⟨"b", 16, some (3, 4), none⟩] false false none =
      ([.notSquare "b" 3 4, .noUsable "g"], none) :=
  (no_usable_entries_abort "g" [⟨"b", 16, some (3, 4), none⟩] false false none [] rfl rfl).1

/-- C8: when the output container already exists and overwrite was not
requested, the group is skipped with a report, independently of its
candidates: nothing is validated, nothing is written, and the remaining
groups proceed unchanged. -/
theorem existing_output_skip (base : String) (items : List Candidate) (we : Option String)
    (rest : List GroupJob) :
    create_ico_for_group base items false true we = ([.skipExists base], none) ∧
    runGroups false ((⟨base, items, true, we⟩ : GroupJob) :: rest) =
      (.skipExists base :: (runGroups false rest).1, (runGroups false rest).2) := by
  constructor
  · rfl
  · simp [runGroups, create_ico_for_group]

/-- C9: a write failure is caught, reported with its underlying cause, writes
nothing, and the remaining groups are processed unchanged. -/
theorem write_failure_reported (base : String) (items : List Candidate)
    (overwrite icoExists : Bool) (e : String) (rest : List GroupJob)
    (hreach : (icoExists && !overwrite) = false)
    (hne : (validateItems items).1.isEmpty = false) :
    create_ico_for_group base items overwrite icoExists (some e) =
      ((validateItems items).2 ++ [.writeFailed base e], none) ∧
    runGroups overwrite ((⟨base, items, icoExists, some e⟩ : GroupJob) :: rest) =
      ((validateItems items).2 ++ [.writeFailed base e] ++ (runGroups overwrite rest).1,
        (runGroups overwrite rest).2) := by
  have h1 : create_ico_for_group base items overwrite icoExists (some e) =
      ((validateItems items).2 ++ [.writeFailed base e], none) := by
    simp [create_ico_for_group, hreach, hne]
  refine ⟨h1, ?_⟩
  simp [runGroups, h1]

/-- Witness for C9: one valid entry, failing write: the cause is surfaced and
no container is produced. -/
theorem write_failure_reported_witness :
    create_ico_for_group "g" [⟨"a", 1, some (1, 1), some [7]⟩] false false
        (some "disk full") =
      ([.writeFailed "g" "disk full"], none) :=
  (write_failure_reported "g" [⟨"a", 1, some (1, 1), some [7]⟩] false false "disk full" []
    rfl rfl).1

/-- C10: a zero-size candidate is grouped by the parser, silently dropped by
the synthesizer before any validation (no entry, no diagnostic), and a group
of only zero-size candidates still reaches the synthesizer and emits the
"no usable entries" diagnostic. -/
theorem zero_size_grouped_then_dropped :
    (∀ (files : List ScanFile) (f : ScanFile) (ds : List Char), f ∈ files →
        sizeReMatch f.stem = some ds → digitsToNat ds = 0 →
        (f.folder, (f, 0)) ∈ flatGroups (group_pngs files)) ∧
    (∀ (c : Candidate) (rest : List Candidate), c.size = 0 →
        validateItems (c :: rest) = validateItems rest) ∧
    (∀ (base : String) (items : List Candidate) (overwrite : Bool) (we : Option String),
        (∀ c ∈ items, c.size = 0) →
        create_ico_for_group base items overwrite false we = ([.noUsable base], none)) := by
  refine ⟨?_, validateItems_zero_skip, ?_⟩
  · intro files f ds hf hm h0
    rw [group_pngs]
    exact (mem_flatGroups_foldl files [] _).mpr (Or.inr ⟨f, hf, ds, hm, by rw [h0]⟩)
  · intro base items ov we hall
    simp [create_ico_for_group, validateItems_all_zero items hall]

/-- Witness for C10: `x_0.png` is grouped with size 0, dropped silently, and a
group of it alone aborts with the "no usable entries" diagnostic. -/
theorem zero_size_grouped_then_dropped_witness :
    ("g", (⟨['x', '_', '0'], "g"⟩, 0)) ∈
        flatGroups (group_pngs [⟨['x', '_', '0'], "g"⟩]) ∧
    validateItems [⟨"x_0.png", 0, some (7, 9), some [1]⟩] = validateItems [] ∧
    create_ico_for_group "g" [⟨"x_0.png", 0, some (7, 9), some [1]⟩] false false none =
      ([.noUsable "g"], none) :=
  ⟨zero_size_grouped_then_dropped.1 [⟨['x', '_', '0'], "g"⟩] ⟨['x', '_', '0'], "g"⟩ ['0']
      (by decide) (by decide) (by decide),
    zero_size_grouped_then_dropped.2.1 ⟨"x_0.png", 0, some (7, 9), some [1]⟩ [] rfl,
    zero_size_grouped_then_dropped.2.2 "g" [⟨"x_0.png", 0, some (7, 9), some [1]⟩] false none
      (by decide)⟩

end PngsToIco

namespace PngsToIco

/-- C5 counterexample: the stem `x_0` matches the suffix pattern, its digit
run parses to the non-positive value 0, and the file is nevertheless placed in
its folder's group (it does appear in a group, with size 0). -/
theorem zero_suffix_grouped_cex :
    group_pngs [⟨['x', '_', '0'], "g"⟩] =
      [("g", [(⟨['x', '_', '0'], "g"⟩, 0)])] ∧
    ("g", (⟨['x', '_', '0'], "g"⟩, 0)) ∈
      flatGroups (group_pngs [⟨['x', '_', '0'], "g"⟩]) := by
  decide

/-- C5 (amended): a file appears in the grouping exactly when its stem
matches the suffix pattern (a trailing digit run), in its parent folder's
group and with the parsed integer as size — including a parsed value of 0; a
file whose stem has no trailing digit run appears in no group. -/
theorem grouped_iff_stem_matches (files : List ScanFile) (x : String × (ScanFile × Nat)) :
    x ∈ flatGroups (group_pngs files) ↔
      ∃ f ∈ files, ∃ ds, sizeReMatch f.stem = some ds ∧
        x = (f.folder, (f, digitsToNat ds)) := by
  rw [group_pngs, mem_flatGroups_foldl]
  simp [flatGroups]

/-- C4 counterexample: size 512 is allowed by the data model (positive,
≤ 65535) and differs from 256, a 512-declared candidate passes validation,
yet the width byte written for it is 0, not 512. -/
theorem width_byte_large_size_cex :
    passes ⟨"p", 512, some (512, 512), some [7]⟩ = some (512, [7]) ∧
    read_u8 (serializeIco [(512, [7])]) 6 = 0 ∧ (0 : Nat) ≠ 512 := by
  decide

/-- C4 (amended): the width and height bytes of a directory record equal the
entry's size when the size is below 256, and are 0 for every size of at least
256 (so 0 stands for 256 and for every larger size alike). -/
theorem width_byte_encoding (size dataLen offset : Nat) :
    (size < 256 → (dirRecord size dataLen offset).getD 0 0 = size ∧
        (dirRecord size dataLen offset).getD 1 0 = size) ∧
    (256 ≤ size → (dirRecord size dataLen offset).getD 0 0 = 0 ∧
        (dirRecord size dataLen offset).getD 1 0 = 0) := by
  constructor
  · intro h
    have h2 : ¬ 256 ≤ size := by omega
    constructor
    · show (if 256 ≤ size then 0 else size) = size
      simp [h2]
    · show (if 256 ≤ size then 0 else size) = size
      simp [h2]
  · intro h
    constructor
    · show (if 256 ≤ size then 0 else size) = 0
      simp [h]
    · show (if 256 ≤ size then 0 else size) = 0
      simp [h]

/-- Witness for C4 (amended) at sizes 33 and 300. -/
theorem width_byte_encoding_witness :
    (dirRecord 33 4 70).getD 0 0 = 33 ∧ (dirRecord 300 4 70).getD 0 0 = 0 :=
  ⟨((width_byte_encoding 33 4 70).1 (by decide)).1,
    ((width_byte_encoding 300 4 70).2 (by decide)).1⟩

/-- C6: the parser keeps two suffix-matching files as separate group members,
and the synthesizer applies no size deduplication: two passing candidates of
the same size yield two entries of that size, a count the sort preserves. -/
theorem duplicate_sizes_not_merged (pre mid post : List Candidate) (c1 c2 : Candidate)
    (s : Nat) (d1 d2 : List Nat)
    (h1 : passes c1 = some (s, d1)) (h2 : passes c2 = some (s, d2)) :
    2 ≤ ((validateItems (pre ++ c1 :: mid ++ c2 :: post)).1).countP (fun e => e.1 == s) ∧
    (∀ items : List Candidate,
      (sortEntries (validateItems items).1).countP (fun e => e.1 == s) =
        ((validateItems items).1).countP (fun e => e.1 == s)) ∧
    2 ≤ (sortEntries (validateItems (pre ++ c1 :: mid ++ c2 :: post)).1).countP
        (fun e => e.1 == s) ∧
    (∀ (files : List ScanFile) (f1 f2 : ScanFile) (ds1 ds2 : List Char),
      f1 ∈ files → f2 ∈ files →
      sizeReMatch f1.stem = some ds1 → sizeReMatch f2.stem = some ds2 →
      (f1.folder, (f1, digitsToNat ds1)) ∈ flatGroups (group_pngs files) ∧
      (f2.folder, (f2, digitsToNat ds2)) ∈ flatGroups (group_pngs files)) := by
  have hcount : 2 ≤ ((validateItems (pre ++ c1 :: mid ++ c2 :: post)).1).countP
      (fun e => e.1 == s) := by
    rw [validateItems_fst_eq_filterMap]
    simp only [List.filterMap_append, List.filterMap_cons, h1, h2, List.countP_append,
      List.countP_cons]
    simp
    omega
  refine ⟨hcount, fun items => countP_sortEntries s (validateItems items).1, ?_, ?_⟩
  · rw [countP_sortEntries]
    exact hcount
  · intro files f1 f2 ds1 ds2 hf1 hf2 hm1 hm2
    rw [group_pngs]
    exact ⟨(mem_flatGroups_foldl files [] _).mpr (Or.inr ⟨f1, hf1, ds1, hm1, rfl⟩),
      (mem_flatGroups_foldl files [] _).mpr (Or.inr ⟨f2, hf2, ds2, hm2, rfl⟩)⟩

/-- Witness for C6: `a_64` and `a-64`, both really 64×64, both survive and
the entry list advertises size 64 twice. -/
theorem duplicate_sizes_not_merged_witness :
    2 ≤ ((validateItems [⟨"a_64", 64, some (64, 64), some [1]⟩,
        ⟨"a-64", 64, some (64, 64), some [2]⟩]).1).countP (fun e => e.1 == 64) :=
  (duplicate_sizes_not_merged [] [] [] ⟨"a_64", 64, some (64, 64), some [1]⟩
    ⟨"a-64", 64, some (64, 64), some [2]⟩ 64 [1] [2] rfl rfl).1

/-- C3: whenever a container is produced, its entry list is the stable
ascending-by-size sort of the surviving entries: sizes are non-decreasing in
directory order and entries of equal size keep their first-seen order. -/
theorem container_entries_sorted_stable (base : String) (items : List Candidate)
    (overwrite icoExists : Bool) (we : Option String) (ds : List Diag) (bs : List Nat)
    (h : create_ico_for_group base items overwrite icoExists we = (ds, some bs)) :
    bs = serializeIco (sortEntries (validateItems items).1) ∧
    (sortEntries (validateItems items).1).Pairwise (fun a b => a.1 ≤ b.1) ∧
    ∀ s : Nat, (sortEntries (validateItems items).1).filter (fun e => e.1 == s) =
      ((validateItems items).1).filter (fun e => e.1 == s) := by
  refine ⟨?_, ?_, fun s => filter_sortEntries s _⟩
  · cases hB : (icoExists && !overwrite) with
    | true => simp [create_ico_for_group, hB] at h
    | false =>
      cases hE : (validateItems items).1.isEmpty with
      | true => simp [create_ico_for_group, hB, hE] at h
      | false =>
        cases we with
        | some e => simp [create_ico_for_group, hB, hE] at h
        | none =>
          simp [create_ico_for_group, hB, hE, Prod.ext_iff] at h
          exact h.2.symm
  · haveI : IsTotal (Nat × List Nat) (fun a b => a.1 ≤ b.1) :=
      ⟨fun a b => Nat.le_total a.1 b.1⟩
    haveI : IsTrans (Nat × List Nat) (fun a b => a.1 ≤ b.1) :=
      ⟨fun a b c hab hbc => Nat.le_trans hab hbc⟩
    exact List.sorted_insertionSort _ _

/-- Witness for C3 on a two-entry group given out of order. -/
theorem container_entries_sorted_stable_witness :
    (sortEntries (validateItems [⟨"a", 2, some (2, 2), some [9]⟩,
        ⟨"b", 1, some (1, 1), some [8]⟩]).1).Pairwise (fun a b => a.1 ≤ b.1) :=
  (container_entries_sorted_stable "g"
    [⟨"a", 2, some (2, 2), some [9]⟩, ⟨"b", 1, some (1, 1), some [8]⟩]
    false false none [.generated "g" [1, 2]]
    (serializeIco (sortEntries (validateItems [⟨"a", 2, some (2, 2), some [9]⟩,
      ⟨"b", 1, some (1, 1), some [8]⟩]).1)) rfl).2.1

end PngsToIco

namespace PngsToIco

/-- C1 counterexample: a validated entry of size 300 (positive, ≤ 65535,
different from 256) serializes with width byte 0, which the 256→0
byte-wrapping rule reads back as 256, not 300: parsing does not reproduce the
size. -/
theorem roundtrip_size_cex :
    passes ⟨"p", 300, some (300, 300), some [7]⟩ = some (300, [7]) ∧
    read_u8 (serializeIco [(300, [7])]) 6 = 0 ∧
    decodeSizeByte (read_u8 (serializeIco [(300, [7])]) 6) = 256 ∧
    (256 : Nat) ≠ 300 := by
  decide

/-- C1 (amended): for every non-empty list of validated entries, the
serialized container is the 6-byte little-endian header (reserved 0,
imageType 1, entryCount), one 16-byte record per entry in order with
colorCount 0, reserved 0, planes 0, bitCount 32, dataSize the exact payload
length, dataOffset `6 + 16*entryCount` plus prior payload lengths, and the
width/height byte the entry's size for sizes below 256 and 0 for sizes of
256 and above; the concatenated raw payloads follow.  Reading the bytes back
reproduces entryCount, each payload's exact length and content, and — for
entries of size at most 256 — the size under the 256→0 byte-wrapping rule
(entries larger than 256 read back as 256). -/
theorem ico_container_layout_roundtrip (es : List (Nat × List Nat))
    (hne : es ≠ [])
    (hpos : ∀ e ∈ es, 0 < e.1)
    (hcount : es.length < 65536)
    (htotal : 6 + 16 * es.length + payloadTotal es < 4294967296) :
    (serializeIco es).take 6 = [0, 0, 1, 0, es.length % 256, es.length / 256 % 256] ∧
    read_u16 (serializeIco es) 4 = es.length ∧
    (serializeIco es).drop (6 + 16 * es.length) = es.flatMap (fun e => e.2) ∧
    ∀ (i : Nat) (hi : i < es.length),
      ((serializeIco es).drop (6 + 16 * i)).take 16 =
          [if 256 ≤ (es.get ⟨i, hi⟩).1 then 0 else (es.get ⟨i, hi⟩).1,
            if 256 ≤ (es.get ⟨i, hi⟩).1 then 0 else (es.get ⟨i, hi⟩).1, 0, 0, 0, 0, 32, 0] ++
            pack_u32 (es.get ⟨i, hi⟩).2.length ++
            pack_u32 (6 + 16 * es.length + payloadTotal (es.take i)) ∧
      read_u32 (serializeIco es) (6 + 16 * i + 8) = (es.get ⟨i, hi⟩).2.length ∧
      read_u32 (serializeIco es) (6 + 16 * i + 12) =
          6 + 16 * es.length + payloadTotal (es.take i) ∧
      ((serializeIco es).drop (6 + 16 * es.length + payloadTotal (es.take i))).take
          (es.get ⟨i, hi⟩).2.length = (es.get ⟨i, hi⟩).2 ∧
      ((es.get ⟨i, hi⟩).1 ≤ 256 →
        decodeSizeByte (read_u8 (serializeIco es) (6 + 16 * i)) = (es.get ⟨i, hi⟩).1) := by
  have hdirlen : (buildEntries es (6 + 16 * es.length)).1.length = 16 * es.length :=
    buildEntries_fst_length es _
  have himgs : (buildEntries es (6 + 16 * es.length)).2 = es.flatMap (fun e => e.2) :=
    buildEntries_snd es _
  have hser := serializeIco_eq es
  have hheadlen :
      ([0, 0, 1, 0, es.length % 256, es.length / 256 % 256] : List Nat).length = 6 := rfl
  refine ⟨?_, ?_, ?_, ?_⟩
  · rw [hser]
    exact List.take_left' hheadlen
  · rw [hser]
    show es.length % 256 + 256 * (es.length / 256 % 256) = es.length
    omega
  · rw [hser, ← List.append_assoc]
    have hlen2 : (([0, 0, 1, 0, es.length % 256, es.length / 256 % 256] : List Nat) ++
        (buildEntries es (6 + 16 * es.length)).1).length = 6 + 16 * es.length := by
      simp [hdirlen]
      omega
    rw [List.drop_left' hlen2, himgs]
  · intro i hi
    have hrec : ((serializeIco es).drop (6 + 16 * i)).take 16 =
        dirRecord (es.get ⟨i, hi⟩).1 (es.get ⟨i, hi⟩).2.length
          (6 + 16 * es.length + payloadTotal (es.take i)) := by
      rw [hser]
      have h6 : 6 + 16 * i =
          ([0, 0, 1, 0, es.length % 256, es.length / 256 % 256] : List Nat).length + 16 * i := by
        simp
      rw [h6, List.drop_append]
      rw [List.drop_append_of_le_length (by rw [hdirlen]; omega)]
      rw [List.take_append_of_le_length (by rw [List.length_drop, hdirlen]; omega)]
      rw [buildEntries_record es (6 + 16 * es.length) i hi]
    have hlenle : (es.get ⟨i, hi⟩).2.length ≤ payloadTotal es := payload_len_le_total es i hi
    have htake : payloadTotal (es.take i) ≤ payloadTotal es := payloadTotal_take_le es i
    refine ⟨?_, ?_, ?_, ?_, ?_⟩
    · rw [hrec]
      rfl
    · have b0 := getD_of_take_drop _ _ (6 + 16 * i) 8 hrec (by omega)
      have b1 := getD_of_take_drop _ _ (6 + 16 * i) 9 hrec (by omega)
      have b2 := getD_of_take_drop _ _ (6 + 16 * i) 10 hrec (by omega)
      have b3 := getD_of_take_drop _ _ (6 + 16 * i) 11 hrec (by omega)
      show (serializeIco es).getD (6 + 16 * i + 8) 0 +
          256 * (serializeIco es).getD (6 + 16 * i + 8 + 1) 0 +
          65536 * (serializeIco es).getD (6 + 16 * i + 8 + 2) 0 +
          16777216 * (serializeIco es).getD (6 + 16 * i + 8 + 3) 0 = (es.get ⟨i, hi⟩).2.length
      rw [show 6 + 16 * i + 8 + 1 = 6 + 16 * i + 9 from by omega,
        show 6 + 16 * i + 8 + 2 = 6 + 16 * i + 10 from by omega,
        show 6 + 16 * i + 8 + 3 = 6 + 16 * i + 11 from by omega]
      rw [b0, b1, b2, b3]
      show (es.get ⟨i, hi⟩).2.length % 256 +
          256 * ((es.get ⟨i, hi⟩).2.length / 256 % 256) +
          65536 * ((es.get ⟨i, hi⟩).2.length / 65536 % 256) +
          16777216 * ((es.get ⟨i, hi⟩).2.length / 16777216 % 256) = (es.get ⟨i, hi⟩).2.length
      exact read_pack_u32_value _ (by omega)
    · have b0 := getD_of_take_drop _ _ (6 + 16 * i) 12 hrec (by omega)
      have b1 := getD_of_take_drop _ _ (6 + 16 * i) 13 hrec (by omega)
      have b2 := getD_of_take_drop _ _ (6 + 16 * i) 14 hrec (by omega)
      have b3 := getD_of_take_drop _ _ (6 + 16 * i) 15 hrec (by omega)
      show (serializeIco es).getD (6 + 16 * i + 12) 0 +
          256 * (serializeIco es).getD (6 + 16 * i + 12 + 1) 0 +
          65536 * (serializeIco es).getD (6 + 16 * i + 12 + 2) 0 +
          16777216 * (serializeIco es).getD (6 + 16 * i + 12 + 3) 0 =
          6 + 16 * es.length + payloadTotal (es.take i)
      rw [show 6 + 16 * i + 12 + 1 = 6 + 16 * i + 13 from by omega,
        show 6 + 16 * i + 12 + 2 = 6 + 16 * i + 14 from by omega,
        show 6 + 16 * i + 12 + 3 = 6 + 16 * i + 15 from by omega]
      rw [b0, b1, b2, b3]
      show (6 + 16 * es.length + payloadTotal (es.take i)) % 256 +
          256 * ((6 + 16 * es.length + payloadTotal (es.take i)) / 256 % 256) +
          65536 * ((6 + 16 * es.length + payloadTotal (es.take i)) / 65536 % 256) +
          16777216 * ((6 + 16 * es.length + payloadTotal (es.take i)) / 16777216 % 256) =
          6 + 16 * es.length + payloadTotal (es.take i)
      exact read_pack_u32_value _ (by omega)
    · rw [hser, ← List.append_assoc]
      have hlen2 : (([0, 0, 1, 0, es.length % 256, es.length / 256 % 256] : List Nat) ++
          (buildEntries es (6 + 16 * es.length)).1).length = 6 + 16 * es.length := by
        simp [hdirlen]
        omega
      rw [show 6 + 16 * es.length + payloadTotal (es.take i) =
          (([0, 0, 1, 0, es.length % 256, es.length / 256 % 256] : List Nat) ++
            (buildEntries es (6 + 16 * es.length)).1).length + payloadTotal (es.take i) from by
          rw [hlen2]]
      rw [List.drop_append, himgs]
      exact payload_extract es i hi
    · intro hle
      have hposi : 0 < (es.get ⟨i, hi⟩).1 := hpos _ (es.get_mem i hi)
      have b0 := getD_of_take_drop _ _ (6 + 16 * i) 0 hrec (by omega)
      have b0' : (serializeIco es).getD (6 + 16 * i) 0 =
          (if 256 ≤ (es.get ⟨i, hi⟩).1 then 0 else (es.get ⟨i, hi⟩).1) := by
        rw [Nat.add_zero] at b0
        rw [b0]
        rfl
      show decodeSizeByte ((serializeIco es).getD (6 + 16 * i) 0) = (es.get ⟨i, hi⟩).1
      rw [b0']
      by_cases h256 : 256 ≤ (es.get ⟨i, hi⟩).1
      · have h : (es.get ⟨i, hi⟩).1 = 256 := by omega
        rw [if_pos h256, h]
        rfl
      · rw [if_neg h256]
        have h0 : ¬ (es.get ⟨i, hi⟩).1 = 0 := by omega
        show (if (es.get ⟨i, hi⟩).1 = 0 then 256 else (es.get ⟨i, hi⟩).1) = (es.get ⟨i, hi⟩).1
        rw [if_neg h0]

/-- Witness for C1 (amended) on a concrete two-entry list. -/
theorem ico_container_layout_roundtrip_witness :
    read_u16 (serializeIco [(16, [170, 171, 172]), (256, [7])]) 4 = 2 :=
  (ico_container_layout_roundtrip [(16, [170, 171, 172]), (256, [7])] (by decide) (by decide)
    (by decide) (by decide)).2.1

end PngsToIco
